import Mathlib

/-!
Shallow embedding of the bulk-ingestion pipeline of
`src/app/utils/load_data.py` (class `TxtToSQLiteConverter`), together with
proofs settling the frozen claims about it.

Python strings are modelled as `List Char`; SQL NULL / Python `None` as
`Option`; the destination table `contribuyentes` as a list of rows in
insertion order.  Machine-level details that the claims do not touch
(wall-clock timing, printing, psutil) are omitted; every function that the
claims do touch is translated line by line from the source.
-/

/-! ### Python string primitives used by `load_data.py` -/

/-- Whitespace characters removed by Python `str.strip()`, restricted to the
Latin-1 range (the characters that can actually occur after decoding with
the candidate 8-bit encodings): space, TAB, LF, VT, FF, CR, FS, GS, RS, US,
NEL, NBSP. -/
def isPySpace (c : Char) : Bool :=
  c = ' ' || c = '\t' || c = '\n' || c = '\u000B' || c = '\u000C' ||
  c = '\u000D' || c = '\u001C' || c = '\u001D' || c = '\u001E' ||
  c = '\u001F' || c = '\u0085' || c = ' '

/-- Python `str.strip()`: drop leading and trailing whitespace. -/
def pyStrip (s : List Char) : List Char :=
  ((s.dropWhile isPySpace).reverse.dropWhile isPySpace).reverse

/-- Python `str.split('|')` (keeps empty fields, result is never empty). -/
def splitPipeAux (acc : List Char) : List Char → List (List Char)
  | [] => [acc.reverse]
  | c :: cs => if c = '|' then acc.reverse :: splitPipeAux [] cs
               else splitPipeAux (c :: acc) cs

/-- Python `str.split('|')`. -/
def splitPipe (s : List Char) : List (List Char) := splitPipeAux [] s

/-- Python `' '.join(xs)`. -/
def joinSpace : List (List Char) → List Char
  | [] => []
  | [x] => x
  | x :: xs => x ++ ' ' :: joinSpace xs

/-- Python `s.replace(pat, repl)`: left-to-right, non-overlapping
replacement of every occurrence.  Fuel-indexed so that the definition is
structurally recursive; `fuel = s.length` suffices because every step
consumes at least one character of `s` (all patterns used are non-empty). -/
def replaceAllAux (pat repl : List Char) : Nat → List Char → List Char
  | 0, s => s
  | _ + 1, [] => []
  | fuel + 1, c :: cs =>
    if pat.isPrefixOf (c :: cs) then
      repl ++ replaceAllAux pat repl fuel ((c :: cs).drop pat.length)
    else
      c :: replaceAllAux pat repl fuel cs

/-- Python `s.replace(pat, repl)`. -/
def replaceAll (pat repl s : List Char) : List Char :=
  replaceAllAux pat repl s.length s

/-! ### `TxtToSQLiteConverter.clean_value` (load_data.py lines 117-136) -/

/-- The `replacements` dict of `clean_value`, in Python dict iteration
order.  The source literal contains the one-character key `'Ã'` seven
times (the mojibake second bytes are invisible only in the last six
repeats of the source text: the bytes show keys 7-13 are all exactly
`U+00C3`); a Python dict keeps the first position and the last value for a
repeated key, so the single effective entry is `'Ã' ↦ 'Ñ'` placed after
`'Ã±'`.  Key 3 is `'Ã'` followed by U+00AD (soft hyphen) and maps to `'í'`
(U+00ED). -/
def cleanReplacements : List (List Char × List Char) :=
  [ (['Ã', '¡'], ['á']), (['Ã', '©'], ['é']), (['Ã', '­'], ['í']),
    (['Ã', '³'], ['ó']), (['Ã', 'º'], ['ú']), (['Ã', '±'], ['ñ']),
    (['Ã'], ['Ñ']), (['Â'], []),
    (['â', '€', '“'], ['-']), (['â', '€', 'œ'], ['"']), (['â', '€'], ['"']),
    (['â', '€', '¢'], ['-']), (['â', '€', '¦'], ['.', '.', '.']) ]

/-- The replacement loop of `clean_value`:
`for wrong, correct in replacements.items(): cleaned = cleaned.replace(wrong, correct)`. -/
def applyReplacements (s : List Char) : List Char :=
  cleanReplacements.foldl (fun acc pr => replaceAll pr.1 pr.2 acc) s

/-- `TxtToSQLiteConverter.clean_value`:
`if not value or value == '-' or value.strip() == '': return None`;
otherwise strip and run the replacement table. -/
def clean_value (value : List Char) : Option (List Char) :=
  if value = [] ∨ value = ['-'] ∨ pyStrip value = [] then none
  else some (applyReplacements (pyStrip value))

/-! ### `TxtToSQLiteConverter.parse_line` (load_data.py lines 138-173) -/

/-- One column value of a parsed record: `none` models Python `None` /
SQL NULL. -/
abbrev FieldVal := Option (List Char)

/-- One parsed record (always exactly 15 values); index 0 is the `ruc`
primary key, index 1 the name field. -/
abbrev Row := List FieldVal

/-- Field-count normalization step of `parse_line`: pad with `None` up to
15 fields, or merge fields beyond index 15 back into the name field
(index 1) — the merge only happens when the name field is non-empty
(`if extra_fields and values[1]:`). -/
def normalizeFields (values : List (List Char)) : List FieldVal :=
  if values.length < 15 then
    values.map some ++ List.replicate (15 - values.length) none
  else if values.length > 15 then
    let extra := values.drop 15
    let vals := values.take 15
    let vals :=
      if extra ≠ [] ∧ vals.getD 1 [] ≠ [] then
        vals.set 1 (vals.getD 1 [] ++ ' ' :: joinSpace extra)
      else vals
    vals.map some
  else values.map some

/-- `TxtToSQLiteConverter.parse_line`: strip the line, reject it if empty,
split on `'|'`, normalize to 15 fields, clean every value.  (The
`try/except` wrapper of the source is unreachable for the pure string
operations modelled here, so the model is total.) -/
def parse_line (line : List Char) : Option Row :=
  let cleaned := pyStrip line
  if cleaned = [] then none
  else some ((normalizeFields (splitPipe cleaned)).map (fun f => f.bind clean_value))

/-! ### The destination table and `INSERT OR REPLACE`
(`create_table` lines 84-115, `insert_batch` lines 175-198) -/

/-- The `ruc` primary-key column of a row (`record[0]`). -/
def ruc (r : Row) : FieldVal := r.getD 0 none

/-- SQLite `INSERT OR REPLACE INTO contribuyentes VALUES (...)` on the
table created by `create_table` (`ruc TEXT PRIMARY KEY`): a row whose key
equals the non-NULL key of the new row is deleted, then the new row is
appended.  Per SQL semantics a NULL key never conflicts with anything
(SQLite permits NULL in a non-INTEGER primary key and treats distinct
NULLs as distinct), so a NULL-keyed row is always appended. -/
def insertOrReplace (t : List Row) (r : Row) : List Row :=
  match ruc r with
  | none => t ++ [r]
  | some k => t.filter (fun q => ¬ ruc q = some k) ++ [r]

/-- Result of one `insert_batch` call: the table afterwards, how many rows
of the batch were inserted by the row-by-row fallback (the
`success_count` local, `0` when the fallback was not taken), and whether
the call propagated an exception (it never does: both failure modes are
caught inside). -/
structure InsertBatchResult where
  table : List Row
  success_count : Nat
  raised : Bool
  deriving Repr, DecidableEq

/-- `TxtToSQLiteConverter.insert_batch`: empty batches return at once; a
successful `executemany` inserts every record in order; if the bulk
statement fails (`bulkOk = false`), each record is retried one at a time
and records whose single-row insert still fails (`rowOk r = false`) are
skipped and not counted.  `bulkOk` and `rowOk` model the two levels of
SQLite failure that the source catches. -/
def insert_batch (bulkOk : Bool) (rowOk : Row → Bool) (t : List Row)
    (batch : List Row) : InsertBatchResult :=
  if batch = [] then ⟨t, 0, false⟩
  else if bulkOk then ⟨batch.foldl insertOrReplace t, 0, false⟩
  else
    ⟨(batch.foldl
        (fun (p : List Row × Nat) r =>
          if rowOk r then (insertOrReplace p.1 r, p.2 + 1) else p)
        (t, 0)).1,
      (batch.foldl
        (fun (p : List Row × Nat) r =>
          if rowOk r then (insertOrReplace p.1 r, p.2 + 1) else p)
        (t, 0)).2, false⟩

/-! ### `TxtToSQLiteConverter.load_data` (load_data.py lines 200-278)

The loop state mirrors the locals of `load_data`: the uncommitted working
table (the transaction opened by `BEGIN TRANSACTION`), `batch_records`,
`total_records`, `error_count`, `lines_processed`.  This model follows the
run in which every SQL statement succeeds (the failing-statement path of
`insert_batch` is settled separately); an unhandled error — including a
`KeyboardInterrupt` — is modelled by an `interrupt` line number at which
the loop raises.  On such an error the transaction is never committed:
for `Exception` the source rolls back explicitly (line 272), and for
`KeyboardInterrupt` the uncommitted transaction is discarded when `main`
closes the connection, so in both cases the committed table is unchanged. -/

structure LoadState where
  table : List Row
  batch_records : List Row
  total_records : Nat
  error_count : Nat
  lines_processed : Nat
  deriving Repr, DecidableEq

/-- One iteration of the `for line_num, line in enumerate(file, 1)` body:
parse, append or count an error, flush the batch once it reaches
`batch_size`, bump `lines_processed`. -/
def processLine (batch_size : Nat) (s : LoadState) (line : List Char) : LoadState :=
  let s :=
    match parse_line line with
    | some r => { s with batch_records := s.batch_records ++ [r] }
    | none => { s with error_count := s.error_count + 1 }
  let s :=
    if batch_size ≤ s.batch_records.length then
      { s with table := s.batch_records.foldl insertOrReplace s.table,
               total_records := s.total_records + s.batch_records.length,
               batch_records := [] }
    else s
  { s with lines_processed := s.lines_processed + 1 }

/-- The data-line loop, with an injected unhandled error: when
`interrupt = some n` the run raises at the start of the n-th iteration
(1-based), or — for `n = ` number of data lines `+ 1` — after the loop but
before the final flush and `commit`.  `none` means the loop raised. -/
def loadAux (interrupt : Option Nat) (batch_size : Nat) :
    LoadState → Nat → List (List Char) → Option LoadState
  | s, lineNum, [] => if interrupt = some lineNum then none else some s
  | s, lineNum, l :: ls =>
    if interrupt = some lineNum then none
    else loadAux interrupt batch_size (processLine batch_size s l) (lineNum + 1) ls

/-- Observable outcome of `load_data`: the committed state of the
destination table when the call returns (or when its exception reaches
`main`), whether it completed, and the counters that
`show_final_results` prints (`Líneas totales`, `Registros insertados`,
`Líneas con errores`). -/
structure LoadOutcome where
  db : List Row
  ok : Bool
  lines_processed : Nat
  error_count : Nat
  total_records : Nat
  deriving Repr, DecidableEq

/-- `TxtToSQLiteConverter.load_data` on the decoded lines of the file:
the first line is the discarded header; parsed records accumulate into
batches that are flushed at `batch_size` inside one transaction; the
remaining batch is flushed after the loop and the transaction commits.
`db0` is the committed table when the call starts (empty after
`create_table`). -/
def load_data (interrupt : Option Nat) (batch_size : Nat) (db0 : List Row)
    (fileLines : List (List Char)) : LoadOutcome :=
  match loadAux interrupt batch_size ⟨db0, [], 0, 0, 0⟩ 1 fileLines.tail with
  | none => ⟨db0, false, 0, 0, 0⟩
  | some s =>
    let s :=
      if s.batch_records ≠ [] then
        { s with table := s.batch_records.foldl insertOrReplace s.table,
                 total_records := s.total_records + s.batch_records.length,
                 batch_records := [] }
      else s
    ⟨s.table, true, s.lines_processed, s.error_count, s.total_records⟩

/-! ### `check_memory` (lines 54-66) and the `main` pre-flight (lines 476-502) -/

/-- Converter configuration relevant to the claims. -/
structure ConverterCfg where
  batch_size : Nat
  deriving Repr, DecidableEq

/-- `BATCH_SIZE = 30000` in `main` (line 451), the constructor default. -/
def initialBatchSize : Nat := 30000

/-- `TxtToSQLiteConverter.check_memory`: if the available memory (in GB)
is under 1, lower `self.batch_size` to 15000. -/
def check_memory (availableGB : ℚ) (c : ConverterCfg) : ConverterCfg :=
  if availableGB < 1 then { c with batch_size := 15000 } else c

/-- The batch size `main` hands to the run: the converter starts at
`BATCH_SIZE = 30000`, `check_memory` runs once, and `main` aborts (no
run) when the available memory is under 0.5 GB.  `none` means no run
takes place. -/
def effectiveBatchSize (availableGB : ℚ) : Option Nat :=
  let c := check_memory availableGB ⟨initialBatchSize⟩
  if availableGB < 1 / 2 then none else some c.batch_size

/-- The load that `main` performs (after the user confirms), carrying the
batch size chosen by the pre-flight check into `load_data`. -/
def mainRun (availableGB : ℚ) (fileLines : List (List Char)) :
    Option LoadOutcome :=
  (effectiveBatchSize availableGB).map (fun bs => load_data none bs [] fileLines)

/-! ### `detect_encoding` (load_data.py lines 27-52)

The file is a byte sequence; decoded text is a sequence of Unicode code
points (`Nat`).  Lines are divided at byte `0x0A` — the line division the
candidate encodings induce is byte-identical, since `0x0A` decodes to a
line break in each of them and never occurs inside a multi-byte UTF-8
sequence. -/

/-- Split a byte list at LF bytes (Python `readline` loop view of the
file; terminators themselves play no further role in the detector). -/
def splitLF : List Nat → List (List Nat)
  | [] => [[]]
  | b :: bs =>
    if b = 10 then [] :: splitLF bs
    else match splitLF bs with
      | [] => [[b]]
      | l :: ls => (b :: l) :: ls

/-- `latin-1` decoding: total, byte `b` becomes code point `b`. -/
def latin1Decode (bs : List Nat) : Option (List Nat) := some bs

/-- `iso-8859-1` is the same codec as `latin-1` in Python. -/
def iso88591Decode (bs : List Nat) : Option (List Nat) := some bs

/-- `cp1252` decoding of one byte: the 0x80-0x9F block is remapped per
Windows-1252 with five undefined bytes that raise, every other byte is
its own code point. -/
def cp1252MapByte (b : Nat) : Option Nat :=
  if b < 0x80 then some b
  else if 0xA0 ≤ b then some b
  else if b = 0x80 then some 0x20AC
  else if b = 0x82 then some 0x201A
  else if b = 0x83 then some 0x0192
  else if b = 0x84 then some 0x201E
  else if b = 0x85 then some 0x2026
  else if b = 0x86 then some 0x2020
  else if b = 0x87 then some 0x2021
  else if b = 0x88 then some 0x02C6
  else if b = 0x89 then some 0x2030
  else if b = 0x8A then some 0x0160
  else if b = 0x8B then some 0x2039
  else if b = 0x8C then some 0x0152
  else if b = 0x8E then some 0x017D
  else if b = 0x91 then some 0x2018
  else if b = 0x92 then some 0x2019
  else if b = 0x93 then some 0x201C
  else if b = 0x94 then some 0x201D
  else if b = 0x95 then some 0x2022
  else if b = 0x96 then some 0x2013
  else if b = 0x97 then some 0x2014
  else if b = 0x98 then some 0x02DC
  else if b = 0x99 then some 0x2122
  else if b = 0x9A then some 0x0161
  else if b = 0x9B then some 0x203A
  else if b = 0x9C then some 0x0153
  else if b = 0x9E then some 0x017E
  else if b = 0x9F then some 0x0178
  else none

/-- `cp1252` decoding of a byte sequence (raises on the first undefined
byte, like incremental decoding in `readline`). -/
def cp1252Decode : List Nat → Option (List Nat)
  | [] => some []
  | b :: bs =>
    match cp1252MapByte b, cp1252Decode bs with
    | some c, some cs => some (c :: cs)
    | _, _ => none

/-- Lower bound for the first continuation byte of a 3-byte UTF-8
sequence (overlong/surrogate exclusion). -/
def utf8Cont2Lo (b : Nat) : Nat := if b = 0xE0 then 0xA0 else 0x80

/-- Upper bound (exclusive of 0xC0) for the first continuation byte of a
3-byte UTF-8 sequence. -/
def utf8Cont2Hi (b : Nat) : Nat := if b = 0xED then 0x9F else 0xBF

/-- Lower bound for the first continuation byte of a 4-byte UTF-8
sequence. -/
def utf8Cont3Lo (b : Nat) : Nat := if b = 0xF0 then 0x90 else 0x80

/-- Upper bound for the first continuation byte of a 4-byte UTF-8
sequence. -/
def utf8Cont3Hi (b : Nat) : Nat := if b = 0xF4 then 0x8F else 0xBF

/-- One strict UTF-8 decoding step (as Python's `utf-8` codec: overlong
forms, surrogates, lone continuation bytes and leads ≥ 0xF5 all raise):
consumes the lead byte `b` and any continuation bytes from `bs`, giving
the decoded code point and the remaining bytes. -/
def utf8Step (b : Nat) (bs : List Nat) : Option (Nat × List Nat) :=
  if b < 0x80 then some (b, bs)
  else if b < 0xC2 then none
  else if b < 0xE0 then
    match bs with
    | b1 :: rest =>
      if 0x80 ≤ b1 ∧ b1 < 0xC0 then
        some ((b - 0xC0) * 64 + (b1 - 0x80), rest)
      else none
    | [] => none
  else if b < 0xF0 then
    match bs with
    | b1 :: b2 :: rest =>
      if (utf8Cont2Lo b ≤ b1 ∧ b1 ≤ utf8Cont2Hi b) ∧ (0x80 ≤ b2 ∧ b2 < 0xC0) then
        some ((b - 0xE0) * 4096 + (b1 - 0x80) * 64 + (b2 - 0x80), rest)
      else none
    | _ => none
  else if b < 0xF5 then
    match bs with
    | b1 :: b2 :: b3 :: rest =>
      if (utf8Cont3Lo b ≤ b1 ∧ b1 ≤ utf8Cont3Hi b) ∧
          (0x80 ≤ b2 ∧ b2 < 0xC0) ∧ (0x80 ≤ b3 ∧ b3 < 0xC0) then
        some ((b - 0xF0) * 262144 + (b1 - 0x80) * 4096 +
              (b2 - 0x80) * 64 + (b3 - 0x80), rest)
      else none
    | _ => none
  else none

/-- Fuel-driven UTF-8 decoding loop; every step consumes at least the
lead byte, so `fuel = bs.length` always suffices. -/
def utf8DecodeAux : Nat → List Nat → Option (List Nat)
  | _, [] => some []
  | 0, _ :: _ => none
  | fuel + 1, b :: bs =>
    match utf8Step b bs with
    | none => none
    | some (v, rest) =>
      match utf8DecodeAux fuel rest with
      | none => none
      | some cs => some (v :: cs)

/-- Strict UTF-8 decoding of a byte sequence. -/
def utf8Decode (bs : List Nat) : Option (List Nat) := utf8DecodeAux bs.length bs

/-- The per-candidate loop body of `detect_encoding`: read up to five
lines; accept at the first line containing `'|'` (code point 124); a
decode error aborts the candidate (the `except` clauses). -/
def acceptsAux (dec : List Nat → Option (List Nat)) : List (List Nat) → Bool
  | [] => false
  | l :: ls =>
    match dec l with
    | none => false
    | some cs => if 124 ∈ cs then true else acceptsAux dec ls

/-- Whether `detect_encoding` accepts the candidate decoder on the file. -/
def acceptsEncoding (dec : List Nat → Option (List Nat)) (file : List Nat) : Bool :=
  acceptsAux dec ((splitLF file).take 5)

/-- `TxtToSQLiteConverter.detect_encoding`: try
`['latin-1', 'iso-8859-1', 'cp1252', 'utf-8']` in order and fall back to
`'latin-1'`. -/
def detect_encoding (file : List Nat) : String :=
  if acceptsEncoding latin1Decode file then "latin-1"
  else if acceptsEncoding iso88591Decode file then "iso-8859-1"
  else if acceptsEncoding cp1252Decode file then "cp1252"
  else if acceptsEncoding utf8Decode file then "utf-8"
  else "latin-1"

/-! ### Derived run-level definitions used by the claims -/

/-- The table as it would look if the pending batch were flushed: the
contents of the open transaction. -/
def commitAll (s : LoadState) : List Row :=
  s.batch_records.foldl insertOrReplace s.table

/-- The records that `parse_line` accepts, in file order. -/
def parsedOf (ls : List (List Char)) : List Row := ls.filterMap parse_line

/-- The number of lines that `parse_line` rejects (the run's
`error_count`). -/
def parseErrors (ls : List (List Char)) : Nat :=
  ls.countP (fun l => (parse_line l).isNone)

/-- No two records of the list carry the same non-NULL key. -/
def goodKeys (recs : List Row) : Prop :=
  List.Pairwise (fun a b => ruc a = none ∨ ruc a ≠ ruc b) recs

instance : DecidablePred goodKeys := fun recs => by
  unfold goodKeys
  infer_instance

/-- A 16-field line whose second field (the name, index 1) is empty:
`"0||2|3|4|5|6|7|8|9|a|b|c|d|e|X"`. -/
def c3CexLine : List Char :=
  ['0', '|', '|', '2', '|', '3', '|', '4', '|', '5', '|', '6', '|', '7',
   '|', '8', '|', '9', '|', 'a', '|', 'b', '|', 'c', '|', 'd', '|', 'e',
   '|', 'X']

/-! ### Quick sanity examples (concrete evaluations of the model) -/

example : clean_value [' ', 'a', ' '] = some ['a'] := by decide
example : clean_value ['-'] = none := by decide
example : clean_value [' '] = none := by decide
example : clean_value ['Â'] = some [] := by decide
example : splitPipe ['a', '|', 'b'] = [['a'], ['b']] := by decide
example : splitPipe ['|'] = [[], []] := by decide
example : joinSpace [['a'], ['b', 'c']] = ['a', ' ', 'b', 'c'] := by decide
example : replaceAll ['Ã', '¡'] ['á'] ['x', 'Ã', '¡'] = ['x', 'á'] := by decide
example : parse_line ['1', '|', 'a'] =
    some [some ['1'], some ['a'], none, none, none, none, none, none, none,
          none, none, none, none, none, none] := by decide
example : parse_line [' '] = none := by decide
example :
    insertOrReplace [[some ['1'], some ['a']]] [some ['1'], some ['b']] =
      [[some ['1'], some ['b']]] := by decide
example : detect_encoding [49, 124, 50] = "latin-1" := by decide
example : detect_encoding [49, 50, 10, 51] = "latin-1" := by decide
example :
    (load_data none 5 [] [['h'], ['1', '|', 'a'], ['2', '|', 'b']]).db.length = 2 := by
  decide
example :
    (load_data none 5 [] [['h'], ['1', '|', 'a'], ['1', '|', 'b']]).db =
      [[some ['1'], some ['b'], none, none, none, none, none, none, none,
        none, none, none, none, none, none]] := by decide

/-! ### Lemmas about `pyStrip` -/

theorem mem_of_mem_dropWhile {α : Type} (p : α → Bool) (a : α) :
    ∀ l : List α, a ∈ l.dropWhile p → a ∈ l := by
  intro l h
  induction l with
  | nil => simp at h
  | cons x xs ih =>
    rw [List.dropWhile_cons] at h
    by_cases hx : p x
    · simp only [hx, if_true] at h
      exact List.mem_cons_of_mem x (ih h)
    · simpa [hx] using h

theorem mem_of_mem_pyStrip (c : Char) (s : List Char) (h : c ∈ pyStrip s) :
    c ∈ s := by
  unfold pyStrip at h
  rw [List.mem_reverse] at h
  have h2 := mem_of_mem_dropWhile _ _ _ h
  rw [List.mem_reverse] at h2
  exact mem_of_mem_dropWhile _ _ _ h2

theorem dropWhile_eq_self_of_front (p : Char → Bool) (u t w : List Char)
    (hu : u.dropWhile p = u) (hsplit : u = t ++ w) : t.dropWhile p = t := by
  rcases t with _ | ⟨c, t'⟩
  · rfl
  have hc : ¬ p c = true := by
    intro hc
    rw [hsplit, List.cons_append, List.dropWhile_cons, if_pos hc] at hu
    have h1 : ((t' ++ w).dropWhile p).length ≤ (t' ++ w).length :=
      (List.dropWhile_suffix p).sublist.length_le
    have h2 := congrArg List.length hu
    simp only [List.length_cons, List.length_append] at h1 h2
    omega
  rw [List.dropWhile_cons, if_neg hc]

theorem pyStrip_stripLeft_fixed (s : List Char) :
    (pyStrip s).dropWhile isPySpace = pyStrip s := by
  obtain ⟨w, hw⟩ :=
    List.dropWhile_suffix (l := (s.dropWhile isPySpace).reverse) isPySpace
  have hufix : (s.dropWhile isPySpace).dropWhile isPySpace = s.dropWhile isPySpace :=
    List.dropWhile_idempotent _ _
  have hsplit : s.dropWhile isPySpace = pyStrip s ++ w.reverse := by
    have h := congrArg List.reverse hw
    simpa [pyStrip] using h.symm
  exact dropWhile_eq_self_of_front isPySpace _ _ _ hufix hsplit

theorem pyStrip_idem (s : List Char) : pyStrip (pyStrip s) = pyStrip s := by
  have h1 : (pyStrip s).dropWhile isPySpace = pyStrip s := pyStrip_stripLeft_fixed s
  show (((pyStrip s).dropWhile isPySpace).reverse.dropWhile isPySpace).reverse = pyStrip s
  rw [h1]
  simp only [pyStrip, List.reverse_reverse, List.dropWhile_idempotent]

/-! ### Lemmas about `replaceAll` and `applyReplacements` -/

theorem replaceAllAux_not_mem (c : Char) (pat' repl : List Char) :
    ∀ (fuel : Nat) (s : List Char), c ∉ s →
      replaceAllAux (c :: pat') repl fuel s = s := by
  intro fuel
  induction fuel with
  | zero => intro s _; rfl
  | succ n ih =>
    intro s hs
    rcases s with _ | ⟨a, as⟩
    · rfl
    have hca : (c == a) = false :=
      beq_eq_false_iff_ne.mpr (fun h => hs (h ▸ List.mem_cons_self a as))
    have hpre : (c :: pat').isPrefixOf (a :: as) = false := by
      simp [List.isPrefixOf, hca]
    rw [replaceAllAux, if_neg (by simp [hpre])]
    rw [ih as (fun h => hs (List.mem_cons_of_mem a h))]

theorem replaceAll_not_mem (c : Char) (pat' repl s : List Char)
    (h : c ∉ s) : replaceAll (c :: pat') repl s = s :=
  replaceAllAux_not_mem c pat' repl s.length s h


/-- On a string containing none of the mojibake trigger characters
`'Ã'`, `'Â'`, `'â'`, the replacement table is the identity: every key in
`cleanReplacements` starts with one of those three characters. -/
theorem applyReplacements_id (s : List Char)
    (hA : 'Ã' ∉ s) (hB : 'Â' ∉ s) (ha : 'â' ∉ s) :
    applyReplacements s = s := by
  simp only [applyReplacements, cleanReplacements, List.foldl_cons, List.foldl_nil]
  rw [replaceAll_not_mem _ _ _ _ hA, replaceAll_not_mem _ _ _ _ hA,
      replaceAll_not_mem _ _ _ _ hA, replaceAll_not_mem _ _ _ _ hA,
      replaceAll_not_mem _ _ _ _ hA, replaceAll_not_mem _ _ _ _ hA,
      replaceAll_not_mem _ _ _ _ hA, replaceAll_not_mem _ _ _ _ hB,
      replaceAll_not_mem _ _ _ _ ha, replaceAll_not_mem _ _ _ _ ha,
      replaceAll_not_mem _ _ _ _ ha, replaceAll_not_mem _ _ _ _ ha,
      replaceAll_not_mem _ _ _ _ ha]

/-! ### Claim C7: per-batch fallback in `insert_batch` -/

theorem foldl_rowOk_pair (rowOk : Row → Bool) (batch : List Row) :
    ∀ (t : List Row) (c : Nat),
      batch.foldl
          (fun (p : List Row × Nat) r =>
            if rowOk r then (insertOrReplace p.1 r, p.2 + 1) else p)
          (t, c) =
        ((batch.filter rowOk).foldl insertOrReplace t,
          c + (batch.filter rowOk).length) := by
  induction batch with
  | nil => intro t c; simp
  | cons r rs ih =>
    intro t c
    rw [List.foldl_cons]
    by_cases h : rowOk r
    · rw [if_pos h, ih, List.filter_cons, if_pos h, List.foldl_cons,
        List.length_cons]
      exact Prod.ext rfl (by omega)
    · rw [if_neg h, ih, List.filter_cons, if_neg h]

/-- Claim C7 (confirmed): `insert_batch` never propagates an exception
(for any failure pattern), and when the bulk `executemany` statement
fails it retries the batch's records one at a time in order, skipping the
rows whose single-row insert still fails and counting the rows that
succeed. -/
theorem claim_c7_batch_fallback (bulkOk : Bool) (rowOk : Row → Bool)
    (t : List Row) (batch : List Row) :
    (insert_batch bulkOk rowOk t batch).raised = false ∧
    insert_batch false rowOk t batch =
      ⟨(batch.filter rowOk).foldl insertOrReplace t,
        (batch.filter rowOk).length, false⟩ := by
  constructor
  · unfold insert_batch
    split_ifs <;> rfl
  · unfold insert_batch
    split_ifs with h h2
    · subst h
      simp
    · exact h2.elim
    · rw [foldl_rowOk_pair rowOk batch t 0]
      simp

/-! ### Lemmas about the load loop -/

theorem parsedOf_cons (l : List Char) (ls : List (List Char)) :
    parsedOf (l :: ls) = (parse_line l).toList ++ parsedOf ls := by
  unfold parsedOf
  cases hl : parse_line l <;> simp [List.filterMap_cons, hl]

theorem parsedOf_length_add_errors (ls : List (List Char)) :
    (parsedOf ls).length + parseErrors ls = ls.length := by
  induction ls with
  | nil => rfl
  | cons l ls ih =>
    rw [parsedOf_cons]
    unfold parseErrors
    rw [List.countP_cons]
    unfold parseErrors at ih
    cases parse_line l <;> simp <;> omega

theorem commitAll_processLine (bs : Nat) (s : LoadState) (l : List Char) :
    commitAll (processLine bs s l) =
      ((parse_line l).toList).foldl insertOrReplace (commitAll s) := by
  unfold processLine commitAll
  cases parse_line l <;> dsimp only <;> split_ifs <;>
    simp [List.foldl_append]

theorem counters_processLine (bs : Nat) (s : LoadState) (l : List Char) :
    (processLine bs s l).lines_processed = s.lines_processed + 1 ∧
    (processLine bs s l).error_count =
      s.error_count + (if (parse_line l).isNone then 1 else 0) ∧
    (processLine bs s l).total_records +
        (processLine bs s l).batch_records.length =
      s.total_records + s.batch_records.length +
        (parse_line l).toList.length := by
  unfold processLine
  cases parse_line l <;> dsimp only <;> split_ifs <;>
    refine ⟨rfl, by simp_all, ?_⟩ <;> simp_all <;> omega

theorem foldl_processLine_spec (bs : Nat) (ls : List (List Char)) :
    ∀ s : LoadState,
      commitAll (ls.foldl (processLine bs) s) =
          (parsedOf ls).foldl insertOrReplace (commitAll s) ∧
      (ls.foldl (processLine bs) s).lines_processed =
          s.lines_processed + ls.length ∧
      (ls.foldl (processLine bs) s).error_count =
          s.error_count + parseErrors ls ∧
      (ls.foldl (processLine bs) s).total_records +
          (ls.foldl (processLine bs) s).batch_records.length =
        s.total_records + s.batch_records.length + (parsedOf ls).length := by
  induction ls with
  | nil =>
    intro s
    refine ⟨rfl, rfl, ?_, by simp [parsedOf]⟩
    simp [parseErrors]
  | cons l ls ih =>
    intro s
    obtain ⟨ih1, ih2, ih3, ih4⟩ := ih (processLine bs s l)
    obtain ⟨h1, h2, h3⟩ := counters_processLine bs s l
    rw [List.foldl_cons]
    refine ⟨?_, ?_, ?_, ?_⟩
    · rw [ih1, commitAll_processLine, parsedOf_cons, List.foldl_append]
    · rw [ih2, h1, List.length_cons]; omega
    · rw [ih3, h2]
      unfold parseErrors
      rw [List.countP_cons]
      cases parse_line l <;> (simp; try omega)
    · rw [ih4, h3, parsedOf_cons, List.length_append]
      omega

theorem loadAux_none (bs : Nat) (ls : List (List Char)) :
    ∀ (s : LoadState) (k : Nat),
      loadAux none bs s k ls = some (ls.foldl (processLine bs) s) := by
  induction ls with
  | nil => intro s k; simp [loadAux]
  | cons l ls ih => intro s k; simp [loadAux, ih]

theorem loadAux_interrupted (bs : Nat) (ls : List (List Char)) :
    ∀ (s : LoadState) (k i : Nat), k ≤ i → i ≤ k + ls.length →
      loadAux (some i) bs s k ls = none := by
  induction ls with
  | nil =>
    intro s k i hk1 hk2
    have : i = k := by simp at hk2; omega
    subst this
    simp [loadAux]
  | cons l ls ih =>
    intro s k i hk1 hk2
    by_cases hik : i = k
    · subst hik; simp [loadAux]
    · rw [loadAux, if_neg (by simp [hik])]
      refine ih _ (k + 1) i (by omega) ?_
      simp only [List.length_cons] at hk2
      omega

/-- Functional description of a successful (uninterrupted) `load_data`
run: the committed table is the sequential `INSERT OR REPLACE` of all
parsed records of the data lines into the starting table, and the
counters are the line, parse-error and parsed-record counts. -/
theorem load_data_none_spec (bs : Nat) (db0 : List Row)
    (file : List (List Char)) :
    load_data none bs db0 file =
      ⟨(parsedOf file.tail).foldl insertOrReplace db0, true,
        file.tail.length, parseErrors file.tail,
        (parsedOf file.tail).length⟩ := by
  unfold load_data
  rw [loadAux_none]
  obtain ⟨h1, h2, h3, h4⟩ :=
    foldl_processLine_spec bs file.tail ⟨db0, [], 0, 0, 0⟩
  set s' := file.tail.foldl (processLine bs) ⟨db0, [], 0, 0, 0⟩ with hs'
  have hca : commitAll s' = (parsedOf file.tail).foldl insertOrReplace db0 := h1
  dsimp only
  split_ifs with hb
  · simp only [LoadOutcome.mk.injEq]
    refine ⟨?_, trivial, ?_, ?_, ?_⟩
    · exact hca
    · simpa using h2
    · simpa using h3
    · simp only [List.length_nil] at h4
      omega
  · push_neg at hb
    simp only [LoadOutcome.mk.injEq]
    refine ⟨?_, trivial, ?_, ?_, ?_⟩
    · rw [← hca]
      unfold commitAll
      rw [hb]
      rfl
    · simpa using h2
    · simpa using h3
    · rw [hb] at h4
      simpa using h4

/-! ### Lemmas about `insertOrReplace` and key uniqueness -/

theorem mem_insertOrReplace (t : List Row) (r q : Row)
    (h : q ∈ insertOrReplace t r) : q ∈ t ∨ q = r := by
  unfold insertOrReplace at h
  cases hr : ruc r with
  | none =>
    rw [hr] at h
    rcases List.mem_append.1 h with h1 | h1
    · exact Or.inl h1
    · exact Or.inr (by simpa using h1)
  | some k =>
    rw [hr] at h
    rcases List.mem_append.1 h with h1 | h1
    · exact Or.inl (List.mem_of_mem_filter h1)
    · exact Or.inr (by simpa using h1)

theorem length_insertOrReplace_fresh (t : List Row) (r : Row)
    (h : ∀ q ∈ t, ruc r = none ∨ ruc r ≠ ruc q) :
    (insertOrReplace t r).length = t.length + 1 := by
  unfold insertOrReplace
  cases hr : ruc r with
  | none => simp
  | some k =>
    dsimp only
    have hfilter : t.filter (fun q => ¬ ruc q = some k) = t := by
      rw [List.filter_eq_self]
      intro q hq
      rcases h q hq with h1 | h1
      · rw [hr] at h1; exact absurd h1 (by simp)
      · rw [hr] at h1
        simpa using fun hc => h1 (by rw [hc])
    rw [hfilter]
    simp

theorem length_foldl_insertOrReplace (recs : List Row) :
    ∀ t : List Row,
      (∀ r ∈ recs, ∀ q ∈ t, ruc r = none ∨ ruc r ≠ ruc q) →
      goodKeys recs →
      (recs.foldl insertOrReplace t).length = t.length + recs.length := by
  induction recs with
  | nil => intro t _ _; simp
  | cons r recs ih =>
    intro t hfresh hgood
    rw [List.foldl_cons]
    have hlen : (insertOrReplace t r).length = t.length + 1 :=
      length_insertOrReplace_fresh t r (hfresh r (List.mem_cons_self r recs))
    have hgood' : goodKeys recs := (List.pairwise_cons.1 hgood).2
    have hrel : ∀ r' ∈ recs, ruc r = none ∨ ruc r ≠ ruc r' :=
      (List.pairwise_cons.1 hgood).1
    have hfresh' : ∀ r' ∈ recs, ∀ q ∈ insertOrReplace t r,
        ruc r' = none ∨ ruc r' ≠ ruc q := by
      intro r' hr' q hq
      rcases mem_insertOrReplace t r q hq with h1 | h1
      · exact hfresh r' (List.mem_cons_of_mem r hr') q h1
      · subst h1
        rcases hrel r' hr' with h2 | h2
        · by_cases h3 : ruc r' = none
          · exact Or.inl h3
          · exact Or.inr (fun hc => h3 (hc.trans h2))
        · exact Or.inr (fun hc => h2 hc.symm)
    rw [ih (insertOrReplace t r) hfresh' hgood', hlen, List.length_cons]
    omega

theorem filter_key_insertOrReplace_eq (t : List Row) (r : Row)
    (k : List Char) (hk : ruc r = some k) :
    (insertOrReplace t r).filter (fun q => ruc q = some k) = [r] := by
  unfold insertOrReplace
  rw [hk]
  dsimp only
  rw [List.filter_append]
  have h1 : (t.filter (fun q => ¬ ruc q = some k)).filter
      (fun q => ruc q = some k) = [] := by
    rw [List.filter_eq_nil_iff]
    intro q hq
    have := List.of_mem_filter hq
    simpa using this
  rw [h1]
  simp [hk]

theorem filter_key_insertOrReplace_ne (t : List Row) (r : Row)
    (k : List Char) (hk : ¬ ruc r = some k) :
    (insertOrReplace t r).filter (fun q => ruc q = some k) =
      t.filter (fun q => ruc q = some k) := by
  unfold insertOrReplace
  cases hr : ruc r with
  | none => simp [List.filter_append, hr]
  | some k' =>
    dsimp only
    have hkk : k' ≠ k := by
      intro hc
      exact hk (by rw [hr, hc])
    rw [List.filter_append]
    have h2 : [r].filter (fun q => ruc q = some k) = [] := by
      simp [hr, hkk]
    rw [h2, List.append_nil]
    induction t with
    | nil => rfl
    | cons q t iht =>
      by_cases hq : ruc q = some k
      · have hq' : ¬ ruc q = some k' := by
          rw [hq]
          simpa using fun hc => hkk hc.symm
        simp only [List.filter_cons]
        rw [if_pos (by simpa using hq'), List.filter_cons,
          if_pos (by simpa using hq), iht]
        rw [if_pos (by simpa using hq)]
      · by_cases hq' : ruc q = some k'
        · simp only [List.filter_cons]
          rw [if_neg (by simpa using hq'), iht, if_neg (by simpa using hq)]
        · simp only [List.filter_cons]
          rw [if_pos (by simpa using hq'), List.filter_cons,
            if_neg (by simpa using hq), iht, if_neg (by simpa using hq)]

theorem filter_foldl_insertOrReplace (k : List Char) (recs : List Row) :
    ∀ t : List Row,
      (recs.foldl insertOrReplace t).filter (fun r => ruc r = some k) =
        match (recs.filter (fun r => ruc r = some k)).getLast? with
        | some r => [r]
        | none => t.filter (fun r => ruc r = some k) := by
  induction recs with
  | nil => intro t; rfl
  | cons r recs ih =>
    intro t
    rw [List.foldl_cons, ih (insertOrReplace t r)]
    by_cases hk : ruc r = some k
    · rcases hrest : recs.filter (fun q => ruc q = some k) with _ | ⟨q, rest⟩
      · rw [List.filter_cons, if_pos (by simpa using hk), hrest,
          filter_key_insertOrReplace_eq t r k hk]
        simp
      · rw [List.filter_cons, if_pos (by simpa using hk), hrest,
          List.getLast?_cons_cons]
        obtain ⟨x, hx⟩ : ∃ x, (q :: rest).getLast? = some x :=
          ⟨_, List.getLast?_eq_getLast_of_ne_nil (by simp)⟩
        rw [hx]
    · rw [List.filter_cons, if_neg (by simpa using hk),
        filter_key_insertOrReplace_ne t r k hk]

/-! ### Claims C1 and C2: uniqueness, replacement, and the final counts -/

/-- Claim C1 (confirmed): after a successful run that started from the
freshly created empty table, at most one row carries any given non-NULL
`ruc` value, and the rows carrying `k` are exactly the last parsed record
of the file (in file order) whose key is `k` — later occurrences replace
earlier ones, never duplicating. -/
theorem claim_c1_unique_last_wins (bs : Nat) (file : List (List Char))
    (k : List Char) :
    ((load_data none bs [] file).db.filter
        (fun r => ruc r = some k)).length ≤ 1 ∧
    (load_data none bs [] file).db.filter (fun r => ruc r = some k) =
      ((parsedOf file.tail).filter (fun r => ruc r = some k)).getLast?.toList := by
  rw [load_data_none_spec]
  dsimp only
  rw [filter_foldl_insertOrReplace k (parsedOf file.tail) []]
  rcases ((parsedOf file.tail).filter (fun r => ruc r = some k)).getLast? with
    _ | r <;> simp

/-- Claim C2, as stated, is false: on a file whose two data lines carry
the same primary key `"1"`, the run reads 2 lines with 0 parse errors and
0 failed rows and prints `Registros insertados = 2`, yet `count(*)` on
the destination table is 1, because the second insert replaced the first
row instead of adding one. -/
theorem claim_c2_counterexample :
    (load_data none 30000 []
        [['h'], ['1', '|', 'a'], ['1', '|', 'b']]).lines_processed = 2 ∧
    (load_data none 30000 []
        [['h'], ['1', '|', 'a'], ['1', '|', 'b']]).error_count = 0 ∧
    (load_data none 30000 []
        [['h'], ['1', '|', 'a'], ['1', '|', 'b']]).total_records = 2 ∧
    (load_data none 30000 []
        [['h'], ['1', '|', 'a'], ['1', '|', 'b']]).db.length = 1 := by
  decide

/-- Claim C2 (amended): after a successful run in which every insert
statement succeeds (so the failed-row count is zero) *and no two parsed
records carry the same non-NULL identifier*, `count(*)` on the
destination table equals lines read minus parse errors (minus the zero
failed rows), and this equals the `Registros insertados` figure of the
final summary.  Without the distinct-key proviso the equality fails
(replaced duplicates shrink `count(*)`), and the printed figure counts
attempted rows, not successful ones — the source itself prints an
`ADVERTENCIA` when the two differ. -/
theorem claim_c2_counts (bs : Nat) (file : List (List Char))
    (h : goodKeys (parsedOf file.tail)) :
    (load_data none bs [] file).ok = true ∧
    (load_data none bs [] file).db.length =
      (load_data none bs [] file).lines_processed -
        (load_data none bs [] file).error_count ∧
    (load_data none bs [] file).total_records =
      (load_data none bs [] file).db.length := by
  rw [load_data_none_spec]
  dsimp only
  have hlen := length_foldl_insertOrReplace (parsedOf file.tail) []
    (by intro r _ q hq; simp at hq) h
  simp only [List.length_nil, Nat.zero_add] at hlen
  have herr := parsedOf_length_add_errors file.tail
  refine ⟨rfl, ?_, ?_⟩ <;> omega

/-- Witness for the amended claim C2 on the two-line file
`"h\n1|a\n2|b"` (distinct keys). -/
theorem claim_c2_witness :
    (load_data none 30000 []
        [['h'], ['1', '|', 'a'], ['2', '|', 'b']]).ok = true ∧
    (load_data none 30000 []
        [['h'], ['1', '|', 'a'], ['2', '|', 'b']]).db.length =
      (load_data none 30000 []
          [['h'], ['1', '|', 'a'], ['2', '|', 'b']]).lines_processed -
        (load_data none 30000 []
            [['h'], ['1', '|', 'a'], ['2', '|', 'b']]).error_count ∧
    (load_data none 30000 []
        [['h'], ['1', '|', 'a'], ['2', '|', 'b']]).total_records =
      (load_data none 30000 []
          [['h'], ['1', '|', 'a'], ['2', '|', 'b']]).db.length :=
  claim_c2_counts 30000 [['h'], ['1', '|', 'a'], ['2', '|', 'b']] (by decide)

/-! ### Claim C10: the encoding detector always chooses latin-1 -/

set_option maxHeartbeats 1600000 in
theorem cp1252MapByte_pipe (b c : Nat) (h : cp1252MapByte b = some c)
    (hc : c = 124) : b = 124 := by
  subst hc
  by_cases h1 : b < 0x80
  · rw [show cp1252MapByte b = some b from by
      unfold cp1252MapByte; rw [if_pos h1]] at h
    exact Option.some.inj h
  · by_cases h2 : 0xA0 ≤ b
    · rw [show cp1252MapByte b = some b from by
        unfold cp1252MapByte; rw [if_neg h1, if_pos h2]] at h
      exact Option.some.inj h
    · have hb1 : 0x80 ≤ b := by omega
      have hb2 : b ≤ 0x9F := by omega
      interval_cases b <;> revert h <;> decide

theorem cp1252Decode_pipe : ∀ (bs cs : List Nat),
    cp1252Decode bs = some cs → 124 ∈ cs → 124 ∈ bs := by
  intro bs
  induction bs with
  | nil =>
    intro cs h hm
    simp only [cp1252Decode, Option.some.injEq] at h
    subst h
    simp at hm
  | cons b bs ih =>
    intro cs h hm
    unfold cp1252Decode at h
    cases hb : cp1252MapByte b with
    | none => rw [hb] at h; simp at h
    | some c =>
      rw [hb] at h
      cases hrest : cp1252Decode bs with
      | none => rw [hrest] at h; simp at h
      | some cs' =>
        rw [hrest] at h
        simp only [Option.some.injEq] at h
        subst h
        rcases List.mem_cons.1 hm with h1 | h1
        · have : b = 124 := cp1252MapByte_pipe b c hb h1.symm
          subst this
          exact List.mem_cons_self _ _
        · exact List.mem_cons_of_mem _ (ih cs' hrest h1)

theorem utf8Step_pipe (b : Nat) (bs : List Nat) (v : Nat) (rest : List Nat)
    (h : utf8Step b bs = some (v, rest)) :
    (v = 124 → b = 124) ∧ (rest = bs ∨ ∀ x ∈ rest, x ∈ bs) := by
  unfold utf8Step at h
  by_cases h1 : b < 0x80
  · rw [if_pos h1] at h
    simp only [Option.some.injEq, Prod.mk.injEq] at h
    exact ⟨fun hv => by omega, Or.inl h.2.symm⟩
  rw [if_neg h1] at h
  by_cases h2 : b < 0xC2
  · rw [if_pos h2] at h; exact absurd h (by simp)
  rw [if_neg h2] at h
  by_cases h3 : b < 0xE0
  · rw [if_pos h3] at h
    rcases bs with _ | ⟨b1, rest'⟩
    · simp at h
    · dsimp only at h
      by_cases hc : 0x80 ≤ b1 ∧ b1 < 0xC0
      · rw [if_pos hc] at h
        simp only [Option.some.injEq, Prod.mk.injEq] at h
        refine ⟨fun hv => by omega, Or.inr ?_⟩
        intro x hx
        rw [← h.2] at hx
        exact List.mem_cons_of_mem _ hx
      · rw [if_neg hc] at h; exact absurd h (by simp)
  rw [if_neg h3] at h
  by_cases h4 : b < 0xF0
  · rw [if_pos h4] at h
    rcases bs with _ | ⟨b1, rest1⟩
    · simp at h
    rcases rest1 with _ | ⟨b2, rest'⟩
    · simp at h
    dsimp only at h
    by_cases hc : (utf8Cont2Lo b ≤ b1 ∧ b1 ≤ utf8Cont2Hi b) ∧ (0x80 ≤ b2 ∧ b2 < 0xC0)
    · rw [if_pos hc] at h
      simp only [Option.some.injEq, Prod.mk.injEq] at h
      obtain ⟨⟨hc1, hc2⟩, hc3, hc4⟩ := hc
      simp only [utf8Cont2Lo, utf8Cont2Hi] at hc1 hc2
      refine ⟨fun hv => ?_, Or.inr ?_⟩
      · split_ifs at hc1 hc2 <;> omega
      · intro x hx
        rw [← h.2] at hx
        exact List.mem_cons_of_mem _ (List.mem_cons_of_mem _ hx)
    · rw [if_neg hc] at h; exact absurd h (by simp)
  rw [if_neg h4] at h
  by_cases h5 : b < 0xF5
  · rw [if_pos h5] at h
    rcases bs with _ | ⟨b1, rest1⟩
    · simp at h
    rcases rest1 with _ | ⟨b2, rest2⟩
    · simp at h
    rcases rest2 with _ | ⟨b3, rest'⟩
    · simp at h
    dsimp only at h
    by_cases hc : (utf8Cont3Lo b ≤ b1 ∧ b1 ≤ utf8Cont3Hi b) ∧
        (0x80 ≤ b2 ∧ b2 < 0xC0) ∧ (0x80 ≤ b3 ∧ b3 < 0xC0)
    · rw [if_pos hc] at h
      simp only [Option.some.injEq, Prod.mk.injEq] at h
      obtain ⟨⟨hc1, hc2⟩, ⟨hc3, hc4⟩, hc5, hc6⟩ := hc
      simp only [utf8Cont3Lo, utf8Cont3Hi] at hc1 hc2
      refine ⟨fun hv => ?_, Or.inr ?_⟩
      · split_ifs at hc1 hc2 <;> omega
      · intro x hx
        rw [← h.2] at hx
        exact List.mem_cons_of_mem _ (List.mem_cons_of_mem _ (List.mem_cons_of_mem _ hx))
    · rw [if_neg hc] at h; exact absurd h (by simp)
  rw [if_neg h5] at h
  exact absurd h (by simp)

theorem utf8DecodeAux_pipe : ∀ (fuel : Nat) (bs : List Nat) (cs : List Nat),
    utf8DecodeAux fuel bs = some cs → 124 ∈ cs → 124 ∈ bs := by
  intro fuel
  induction fuel with
  | zero =>
    intro bs cs h hm
    rcases bs with _ | ⟨b, rest⟩
    · rw [show utf8DecodeAux 0 [] = some [] from rfl] at h
      injection h with h'
      rw [← h'] at hm
      simp at hm
    · rw [show utf8DecodeAux 0 (b :: rest) = none from rfl] at h
      exact absurd h (by simp)
  | succ n ih =>
    intro bs cs h hm
    rcases bs with _ | ⟨b, rest⟩
    · rw [show utf8DecodeAux (n + 1) [] = some [] from rfl] at h
      injection h with h'
      rw [← h'] at hm
      simp at hm
    · rw [utf8DecodeAux] at h
      cases hstep : utf8Step b rest with
      | none => rw [hstep] at h; exact absurd h (by simp)
      | some p =>
        rw [hstep] at h
        rcases p with ⟨v, rest'⟩
        dsimp only at h
        cases hrec : utf8DecodeAux n rest' with
        | none => rw [hrec] at h; exact absurd h (by simp)
        | some cs' =>
          rw [hrec] at h
          simp only [Option.some.injEq] at h
          subst h
          obtain ⟨hv, hsub⟩ := utf8Step_pipe b rest v rest' hstep
          rcases List.mem_cons.1 hm with hmb | hmb
          · rw [hv hmb.symm]
            exact List.mem_cons_self _ _
          · have hrest : 124 ∈ rest' := ih rest' cs' hrec hmb
            rcases hsub with hs | hs
            · exact List.mem_cons_of_mem _ (hs ▸ hrest)
            · exact List.mem_cons_of_mem _ (hs 124 hrest)

theorem utf8Decode_pipe (bs cs : List Nat) (h : utf8Decode bs = some cs)
    (hm : 124 ∈ cs) : 124 ∈ bs :=
  utf8DecodeAux_pipe bs.length bs cs h hm

theorem acceptsAux_true (dec : List Nat → Option (List Nat)) :
    ∀ ls : List (List Nat), acceptsAux dec ls = true →
      ∃ l ∈ ls, ∃ cs, dec l = some cs ∧ 124 ∈ cs := by
  intro ls
  induction ls with
  | nil => intro h; simp [acceptsAux] at h
  | cons l ls ih =>
    intro h
    unfold acceptsAux at h
    cases hd : dec l with
    | none => rw [hd] at h; simp at h
    | some cs =>
      rw [hd] at h
      dsimp only at h
      by_cases hm : 124 ∈ cs
      · exact ⟨l, List.mem_cons_self _ _, cs, hd, hm⟩
      · rw [if_neg hm] at h
        obtain ⟨l', hl', cs', hd', hm'⟩ := ih h
        exact ⟨l', List.mem_cons_of_mem _ hl', cs', hd', hm'⟩

theorem acceptsAux_latin1_false :
    ∀ ls : List (List Nat), acceptsAux latin1Decode ls = false →
      ∀ l ∈ ls, 124 ∉ l := by
  intro ls
  induction ls with
  | nil => intro _ l hl; simp at hl
  | cons l ls ih =>
    intro h l' hl'
    simp only [acceptsAux, latin1Decode] at h
    split_ifs at h with hm
    rcases List.mem_cons.1 hl' with h1 | h1
    · exact h1 ▸ hm
    · exact ih h l' h1

/-- Claim C10 (confirmed): `detect_encoding` returns `"latin-1"` on every
file.  `latin-1` decoding never raises, so if any of the first five lines
contains the delimiter byte `0x7C` the first candidate is accepted; and
if none does, no later candidate (`iso-8859-1`, `cp1252`, `utf-8`) can
see a `'|'` either — each of them maps only the byte `0x7C` to `'|'` and
all four divide the file into the same byte lines — so every candidate is
rejected and the fixed fallback, again `"latin-1"`, is returned. -/
theorem claim_c10_detect_latin1 (file : List Nat) :
    detect_encoding file = "latin-1" := by
  unfold detect_encoding
  by_cases h : acceptsEncoding latin1Decode file = true
  · rw [if_pos h]
  · have hfalse : acceptsEncoding latin1Decode file = false := by
      simpa using h
    have hno : ∀ l ∈ (splitLF file).take 5, 124 ∉ l :=
      acceptsAux_latin1_false _ hfalse
    have hgen : ∀ dec : List Nat → Option (List Nat),
        (∀ l cs, dec l = some cs → 124 ∈ cs → 124 ∈ l) →
        ¬ acceptsEncoding dec file = true := by
      intro dec hdec hc
      obtain ⟨l, hl, cs, hcs, hm⟩ := acceptsAux_true dec _ hc
      exact hno l hl (hdec l cs hcs hm)
    rw [if_neg h,
      if_neg (hgen iso88591Decode
        (fun l cs hc hm => by
          simp only [iso88591Decode, Option.some.injEq] at hc
          exact hc ▸ hm)),
      if_neg (hgen cp1252Decode (fun l cs hc hm => cp1252Decode_pipe l cs hc hm)),
      if_neg (hgen utf8Decode
        (fun l cs hc hm => utf8Decode_pipe l cs hc hm))]

/-! ### Claim C8: one transaction, full rollback on unhandled errors -/

/-- Claim C8 (confirmed): the whole file is ingested inside the single
transaction opened before the first batch; if an unhandled error —
including a `KeyboardInterrupt` — strikes at any point of the load (any
data line, or after the loop before the final commit), nothing of the run
reaches the committed table: it is left exactly as `create_table` left it.
(For an `Exception` the source calls `rollback` explicitly; a
`KeyboardInterrupt` skips that handler, but the transaction was never
committed and is discarded when `main` closes the connection — the
committed table is unchanged either way.) -/
theorem claim_c8_rollback (bs : Nat) (db0 : List Row)
    (file : List (List Char)) (i : Nat)
    (h1 : 1 ≤ i) (h2 : i ≤ file.tail.length + 1) :
    (load_data (some i) bs db0 file).db = db0 ∧
    (load_data (some i) bs db0 file).ok = false := by
  unfold load_data
  rw [loadAux_interrupted bs file.tail _ 1 i h1 (by omega)]
  exact ⟨rfl, rfl⟩

/-- Witness for claim C8: interrupting at the first data line of a
two-line file leaves the table empty. -/
theorem claim_c8_witness :
    (load_data (some 1) 2 [] [['h'], ['1', '|', 'a']]).db = [] ∧
    (load_data (some 1) 2 [] [['h'], ['1', '|', 'a']]).ok = false :=
  claim_c8_rollback 2 [] [['h'], ['1', '|', 'a']] 1 (by decide) (by decide)

/-! ### Claim C9: low-memory batch-size reduction -/

/-- Claim C9 (confirmed): when the pre-flight memory check sees less than
1 GB available (and at least the 0.5 GB floor below which `main` refuses
to run at all), the batch size handed to the rest of the run is the
reduced constant 15000, not the configured default 30000, and the load
`main` performs uses exactly that size. -/
theorem claim_c9_low_memory_batch (a : ℚ) (h1 : 1 / 2 ≤ a) (h2 : a < 1)
    (file : List (List Char)) :
    effectiveBatchSize a = some 15000 ∧
    effectiveBatchSize a ≠ some initialBatchSize ∧
    mainRun a file = some (load_data none 15000 [] file) := by
  have hs : effectiveBatchSize a = some 15000 := by
    unfold effectiveBatchSize check_memory
    rw [if_pos h2, if_neg (not_lt.mpr h1)]
  refine ⟨hs, ?_, ?_⟩
  · rw [hs]
    unfold initialBatchSize
    simp
  · unfold mainRun
    rw [hs]
    rfl

/-- Witness for claim C9 at 0.75 GB of available memory. -/
theorem claim_c9_witness :
    effectiveBatchSize (3 / 4 : ℚ) = some 15000 ∧
    effectiveBatchSize (3 / 4 : ℚ) ≠ some initialBatchSize ∧
    mainRun (3 / 4 : ℚ) [] = some (load_data none 15000 [] []) :=
  claim_c9_low_memory_batch (3 / 4) (by norm_num) (by norm_num) []

/-! ### Claims C5 and C6: value cleaning -/

theorem clean_value_eq_some (v : List Char)
    (h : ¬ (v = [] ∨ v = ['-'] ∨ pyStrip v = [])) :
    clean_value v = some (applyReplacements (pyStrip v)) := by
  unfold clean_value
  exact if_neg h

/-- Claim C5, as stated, is false: cleaning tests the raw value against
`'-'` before trimming (`value == '-'`), so the value `" -"` — whose
trimmed form is exactly the single character `'-'` — is not nulled but
cleaned to `"-"`. -/
theorem claim_c5_counterexample :
    pyStrip [' ', '-'] = ['-'] ∧ clean_value [' ', '-'] = some ['-'] := by
  decide

/-- Claim C5 (amended): cleaning yields null exactly when the trimmed
value is the empty string or the raw (untrimmed) value is exactly the
single character `'-'`. -/
theorem claim_c5_null_iff (v : List Char) :
    clean_value v = none ↔ (pyStrip v = [] ∨ v = ['-']) := by
  unfold clean_value
  split_ifs with h
  · constructor
    · intro _
      rcases h with h | h | h
      · left; rw [h]; rfl
      · right; exact h
      · left; exact h
    · intro _; rfl
  · constructor
    · intro hc; exact absurd hc (by simp)
    · intro hc
      refine absurd ?_ h
      rcases hc with h1 | h1
      · exact Or.inr (Or.inr h1)
      · exact Or.inr (Or.inl h1)

/-- Claim C6, as stated, is false: the replacement table deletes the
character `'Â'`, so cleaning `"Â"` yields the non-null empty string,
which a second cleaning pass turns into null. -/
theorem claim_c6_counterexample :
    clean_value ['Â'] = some [] ∧ clean_value [] ≠ some [] := by decide

/-- Claim C6 (amended): value cleaning is idempotent on every input that
contains none of the mojibake trigger characters `'Ã'`, `'Â'`, `'â'`
(every replacement key starts with one of them) and whose trimmed value
is not the lone dash: on such inputs a second application of
`clean_value` to the non-null output returns that output unchanged.  The
excluded inputs genuinely break idempotence: deleting `'Â'` can expose
emptiness or edge whitespace, the table can produce a lone `'-'`, and an
input like `" - "` cleans to `"-"` which then cleans to null. -/
theorem claim_c6_clean_idem (v : List Char)
    (h1 : 'Ã' ∉ v) (h2 : 'Â' ∉ v) (h3 : 'â' ∉ v)
    (h4 : pyStrip v ≠ ['-']) (w : List Char)
    (hw : clean_value v = some w) : clean_value w = some w := by
  by_cases h : v = [] ∨ v = ['-'] ∨ pyStrip v = []
  · rw [show clean_value v = none from by unfold clean_value; exact if_pos h] at hw
    exact Option.noConfusion hw
  · rw [clean_value_eq_some v h] at hw
    have hw' : applyReplacements (pyStrip v) = w := Option.some.inj hw
    push_neg at h
    obtain ⟨hv1, hv2, hv3⟩ := h
    have hid : applyReplacements (pyStrip v) = pyStrip v :=
      applyReplacements_id _ (fun hm => h1 (mem_of_mem_pyStrip _ _ hm))
        (fun hm => h2 (mem_of_mem_pyStrip _ _ hm))
        (fun hm => h3 (mem_of_mem_pyStrip _ _ hm))
    have hwv : w = pyStrip v := by rw [← hw', hid]
    subst hwv
    have hnot : ¬ (pyStrip v = [] ∨ pyStrip v = ['-'] ∨ pyStrip (pyStrip v) = []) := by
      push_neg
      exact ⟨hv3, h4, by rw [pyStrip_idem]; exact hv3⟩
    rw [clean_value_eq_some _ hnot, pyStrip_idem, hid]

/-- Witness for the amended claim C6 at the concrete input `"a"`. -/
theorem claim_c6_witness : clean_value ['a'] = some ['a'] :=
  claim_c6_clean_idem ['a'] (by decide) (by decide) (by decide) (by decide)
    ['a'] (by decide)

/-! ### Claims C3 and C4: field-count normalization in `parse_line` -/

theorem parse_line_eq_some (line : List Char) (h : pyStrip line ≠ []) :
    parse_line line =
      some ((normalizeFields (splitPipe (pyStrip line))).map
        (fun f => f.bind clean_value)) := by
  unfold parse_line
  exact if_neg h

theorem getD_replicate_none (m j : Nat) :
    (List.replicate m (none : FieldVal)).getD j none = none := by
  rcases Nat.lt_or_ge j m with h | h
  · rw [List.getD_eq_getElem _ _ (by simpa using h), List.getElem_replicate]
  · rw [List.getD_eq_default]
    simpa

/-- Claim C4 (confirmed): a non-empty line splitting into fewer than 15
fields parses to a record of exactly 15 values whose missing trailing
values are null. -/
theorem claim_c4_pad_nulls (line : List Char)
    (h1 : pyStrip line ≠ [])
    (h2 : (splitPipe (pyStrip line)).length < 15) :
    ∃ r, parse_line line = some r ∧ r.length = 15 ∧
      ∀ i, (splitPipe (pyStrip line)).length ≤ i → i < 15 →
        r.getD i none = none := by
  have hp := parse_line_eq_some line h1
  set vs := splitPipe (pyStrip line) with hvs
  have hnf : normalizeFields vs =
      vs.map some ++ List.replicate (15 - vs.length) none := by
    unfold normalizeFields
    rw [if_pos h2]
  refine ⟨_, hp, ?_, ?_⟩
  · rw [hnf]
    simp only [List.length_map, List.length_append, List.length_replicate]
    omega
  · intro i hi1 hi2
    rw [hnf, List.map_append]
    rw [List.getD_append_right _ _ _ _ (by simpa using hi1)]
    rw [List.map_replicate]
    rw [show ((none : FieldVal).bind clean_value) = none from rfl]
    exact getD_replicate_none _ _

/-- Witness for claim C4 at the concrete line `"1|a"` (2 fields). -/
theorem claim_c4_witness :
    ∃ r, parse_line ['1', '|', 'a'] = some r ∧ r.length = 15 ∧
      ∀ i, (splitPipe (pyStrip ['1', '|', 'a'])).length ≤ i → i < 15 →
        r.getD i none = none :=
  claim_c4_pad_nulls ['1', '|', 'a'] (by decide) (by decide)

/-- Claim C3, as stated, is false: the merge of overflow fields into the
name runs only `if extra_fields and values[1]`, so on a 16-field line
whose name field is empty the overflow field `"X"` is silently dropped
and the name parses to null instead of containing the overflow. -/
theorem claim_c3_counterexample :
    (splitPipe (pyStrip c3CexLine)).length = 16 ∧
    (splitPipe (pyStrip c3CexLine)).drop 15 = [['X']] ∧
    (parse_line c3CexLine).map (fun r => r.getD 1 none) = some none := by
  decide

/-- Claim C3 (amended): for a non-empty line splitting into more than 15
fields *whose name field (index 1) is non-empty*, the parsed record has
exactly 15 values and its name is the cleaning of the original name
followed by a space and all overflow fields space-joined in original
order.  (When the name field is empty the source drops the overflow
fields instead.) -/
theorem claim_c3_overflow_merge (line : List Char)
    (h1 : 15 < (splitPipe (pyStrip line)).length)
    (h2 : (splitPipe (pyStrip line)).getD 1 [] ≠ []) :
    ∃ r, parse_line line = some r ∧ r.length = 15 ∧
      r.getD 1 none = clean_value ((splitPipe (pyStrip line)).getD 1 [] ++
        ' ' :: joinSpace ((splitPipe (pyStrip line)).drop 15)) := by
  have hne : pyStrip line ≠ [] := by
    intro h0
    rw [h0] at h1
    simp [splitPipe, splitPipeAux] at h1
  have hp := parse_line_eq_some line hne
  set vs := splitPipe (pyStrip line) with hvs
  have hextra : vs.drop 15 ≠ [] := by
    intro h0
    have hl := congrArg List.length h0
    simp only [List.length_drop, List.length_nil] at hl
    omega
  have htklen : (vs.take 15).length = 15 := by
    simp only [List.length_take]
    omega
  have hvals1 : (vs.take 15).getD 1 [] = vs.getD 1 [] := by
    rw [List.getD_eq_getElem _ _ (by omega), List.getD_eq_getElem _ _ (by omega)]
    exact List.getElem_take _
  have hnf : normalizeFields vs =
      ((vs.take 15).set 1 (vs.getD 1 [] ++
        ' ' :: joinSpace (vs.drop 15))).map some := by
    unfold normalizeFields
    rw [if_neg (by omega), if_pos (by omega)]
    dsimp only
    rw [if_pos ⟨hextra, by rw [hvals1]; exact h2⟩, hvals1]
  refine ⟨_, hp, ?_, ?_⟩
  · rw [hnf]
    simp only [List.length_map, List.length_set]
    exact htklen
  · rw [hnf, List.map_map]
    rw [List.getD_eq_getElem _ _
      (by simp only [List.length_map, List.length_set, htklen]; omega)]
    rw [List.getElem_map]
    rw [List.getElem_set_self (by simp only [List.length_set, htklen]; omega)]
    rfl

/-- Witness for the amended claim C3 at the concrete 16-field line
`"0|N|2|3|4|5|6|7|8|9|a|b|c|d|e|X"`. -/
theorem claim_c3_witness :
    ∃ r, parse_line
        ['0', '|', 'N', '|', '2', '|', '3', '|', '4', '|', '5', '|', '6',
         '|', '7', '|', '8', '|', '9', '|', 'a', '|', 'b', '|', 'c', '|',
         'd', '|', 'e', '|', 'X'] = some r ∧ r.length = 15 ∧
      r.getD 1 none = clean_value
        ((splitPipe (pyStrip
          ['0', '|', 'N', '|', '2', '|', '3', '|', '4', '|', '5', '|', '6',
           '|', '7', '|', '8', '|', '9', '|', 'a', '|', 'b', '|', 'c', '|',
           'd', '|', 'e', '|', 'X'])).getD 1 [] ++
          ' ' :: joinSpace ((splitPipe (pyStrip
          ['0', '|', 'N', '|', '2', '|', '3', '|', '4', '|', '5', '|', '6',
           '|', '7', '|', '8', '|', '9', '|', 'a', '|', 'b', '|', 'c', '|',
           'd', '|', 'e', '|', 'X'])).drop 15)) :=
  claim_c3_overflow_merge _ (by decide) (by decide)

